import Mathlib

/-!
Shallow embedding of the ggrs input-compression codec (src/network/compression.rs)
and of the spectator session (src/sessions/p2p_spectator_session.rs), together with
proofs of the specified properties. Machine integers are modelled as Nat/Int; byte
buffers as lists of Nat; Rust panics (assert failures, remainder by zero) as Option
results; fallible functions as Option/Except.
-/

/-- Sentinel frame value meaning no frame / unknown. Frames are i32 in the source,
modelled as Int throughout (frame arithmetic never nears 2^31). -/
def NULL_FRAME : Int := -1

/-- Conversion of an i32 frame to usize, as the Rust cast `as usize` does
(sign-extension, i.e. reduction modulo 2^64). -/
def asUsize (f : Int) : Nat := (f % (2 ^ 64 : Int)).toNat

/-- Modelled from the spec: the input record GameInput (its defining file frame_info.rs
is not under src; compression.rs only uses the fields below). A byte buffer tagged with
a frame index; the live input bytes are the first `size` bytes of `buffer`. -/
structure GameInput where
  frame : Int
  size : Nat
  buffer : List Nat
deriving DecidableEq

/-- Live input bytes of a GameInput: the first `size` bytes of the buffer
(the accessor input() in the source). -/
def GameInput.input (g : GameInput) : List Nat := g.buffer.take g.size

/-- Modelled from the spec: GameInput::new(frame, size) produces a zeroed buffer. -/
def GameInput.new (frame : Int) (size : Nat) : GameInput :=
  ⟨frame, size, List.replicate size 0⟩

/-- Modelled from the spec: a GameInput stores `size` live bytes, so the backing
buffer (a fixed-size array in the source) holds at least `size` bytes. -/
def GameInput.WF (g : GameInput) : Prop := g.size ≤ g.buffer.length

instance (g : GameInput) : Decidable (GameInput.WF g) :=
  inferInstanceAs (Decidable (g.size ≤ g.buffer.length))

/-- Modelled from the spec: two inputs are equal iff their sizes agree and their live
buffers are byte-identical (the frame stamp does not take part in input equality). -/
def gameInputEq (a b : GameInput) : Prop := a.size = b.size ∧ a.input = b.input

/-- Little-endian base-128 varint encoder, fuel-recursive so that it reduces by rfl;
fuel n is always sufficient for the number n. -/
def varintEncodeGo : Nat → Nat → List Nat
  | 0, n => [n]
  | fuel + 1, n => if n < 128 then [n] else (n % 128 + 128) :: varintEncodeGo fuel (n / 128)

/-- Little-endian base-128 varint encoding of a number. -/
def varintEncode (n : Nat) : List Nat := varintEncodeGo n n

/-- Varint decoder: returns the decoded number and the remaining bytes. -/
def varintDecode : List Nat → Option (Nat × List Nat)
  | [] => none
  | b :: rest =>
    if b < 128 then some (b, rest)
    else
      match varintDecode rest with
      | some (m, r) => some (b - 128 + 128 * m, r)
      | none => none

/-- Fuel-recursive worker for the run-length encoder; fuel bounds the number of runs,
so fuel = length of the input always suffices. Each maximal run of a byte b is stored
as one chunk: a fill chunk (varint header 4*len + 2*fillbit + 1, odd) when b is 0x00
or 0xff, otherwise a literal chunk (varint header 2*len, even, followed by the bytes). -/
def rleEncodeGo : Nat → List Nat → List Nat
  | _, [] => []
  | 0, l => l
  | fuel + 1, b :: rest =>
    (if b = 0 ∨ b = 255 then
      varintEncode (4 * ((rest.takeWhile (fun x => x = b)).length + 1) +
        (if b = 255 then 2 else 0) + 1)
    else
      varintEncode (2 * ((rest.takeWhile (fun x => x = b)).length + 1)) ++
        List.replicate ((rest.takeWhile (fun x => x = b)).length + 1) b) ++
    rleEncodeGo fuel (rest.dropWhile (fun x => x = b))

/-- Modelled from the spec: the external bitfield run-length encoder used as step 2 of
the codec (spec 4.2); its crate is not part of this repository. It is biased toward
long runs of identical bytes, in particular the zero bytes produced by the XOR delta. -/
def bitfield_rle_encode (data : List Nat) : List Nat := rleEncodeGo data.length data

/-- Fuel-recursive worker for the run-length decoder; fails on malformed input. -/
def rleDecodeGo : Nat → List Nat → Option (List Nat)
  | _, [] => some []
  | 0, _ => none
  | fuel + 1, b :: rest =>
    match varintDecode (b :: rest) with
    | none => none
    | some (n, r) =>
      if n % 2 = 1 then
        match rleDecodeGo fuel r with
        | some d => some (List.replicate (n / 4) (if n / 2 % 2 = 1 then 255 else 0) ++ d)
        | none => none
      else
        if n / 2 ≤ r.length then
          match rleDecodeGo fuel (r.drop (n / 2)) with
          | some d => some (r.take (n / 2) ++ d)
          | none => none
        else none

/-- Modelled from the spec: decoder of the external bitfield run-length format. -/
def bitfield_rle_decode (data : List Nat) : Option (List Nat) :=
  rleDecodeGo data.length data

/-- Worker for delta_encode carrying the enumeration index i. A none result models a
panicking assert: the source asserts input.size == reference.size and, unless the
reference frame is NULL_FRAME, input.frame == reference.frame + i + 1. -/
def delta_encodeGo (reference : GameInput) : Nat → List GameInput → Option (List Nat)
  | _, [] => some []
  | i, input :: rest =>
    if input.size = reference.size ∧
        (reference.frame = NULL_FRAME ∨ input.frame = reference.frame + (i : Int) + 1) then
      match delta_encodeGo reference (i + 1) rest with
      | some bs =>
        some (List.zipWith (fun b1 b2 => b1 ^^^ b2) reference.input input.input ++ bs)
      | none => none
    else none

/-- XOR each pending input byte-wise against the reference input and concatenate
(delta_encode in compression.rs); none models an assert failure. -/
def delta_encode (reference : GameInput) (pending_input : List GameInput) : Option (List Nat) :=
  delta_encodeGo reference 0 pending_input

/-- XOR-delta then run-length encode (encode in compression.rs). -/
def encode (reference : GameInput) (pending_input : List GameInput) : Option (List Nat) :=
  match delta_encode reference pending_input with
  | some buf => some (bitfield_rle_encode buf)
  | none => none

/-- Inverse of the delta encoding (delta_decode in compression.rs). The source asserts
data.len() % reference.size == 0; with reference.size == 0 the Rust remainder itself
panics (division by zero), modelled by the first branch returning none. Input k of the
output is GameInput::new(start_frame + k, reference.size) whose first
reference.input().len() buffer bytes are overwritten with reference byte XOR data byte. -/
def delta_decode (reference : GameInput) (start_frame : Int) (data : List Nat) :
    Option (List GameInput) :=
  if reference.size = 0 then none
  else if data.length % reference.size ≠ 0 then none
  else
    some ((List.range (data.length / reference.size)).map (fun (k : Nat) =>
      { frame := start_frame + (k : Int)
        size := reference.size
        buffer :=
          List.zipWith (fun b d => b ^^^ d) reference.input
            ((data.drop (reference.size * k)).take reference.input.length) ++
          List.replicate (reference.size - reference.input.length) 0 }))

/-- Run-length decode then delta decode (decode in compression.rs); none models the
error return respectively the assert/remainder panic. -/
def decode (reference : GameInput) (start_frame : Int) (data : List Nat) :
    Option (List GameInput) :=
  match bitfield_rle_decode data with
  | some buf => delta_decode reference start_frame buf
  | none => none

/-- Session orchestrator state, as used by the spectator (SessionState in the source). -/
inductive SessionState where
  | Synchronizing
  | Running
deriving DecidableEq

/-- Connection status of a remote player slot (udp_msg.rs). -/
structure ConnectionStatus where
  disconnected : Bool
  last_frame : Int
deriving DecidableEq

/-- Default ConnectionStatus (udp_msg.rs): connected, last_frame NULL_FRAME. -/
instance : Inhabited ConnectionStatus := ⟨⟨false, NULL_FRAME⟩⟩

/-- Modelled from the spec: PlayerInput over the generic input type (frame_info.rs is
not under src); the generic input value is represented by its byte buffer, whose length
is the session input size. -/
structure PlayerInput where
  frame : Int
  input : List Nat
deriving DecidableEq

/-- PlayerInput::new(frame, input). -/
def PlayerInput.new (frame : Int) (input : List Nat) : PlayerInput := ⟨frame, input⟩

/-- PlayerInput::blank_input(frame): the zeroed input value with the given frame stamp. -/
def PlayerInput.blank_input (input_size : Nat) (frame : Int) : PlayerInput :=
  ⟨frame, List.replicate input_size 0⟩

/-- Host-facing error kinds used by the spectator session (GGRSError in the source;
payload-free shallow rendering). -/
inductive GGRSError where
  | PredictionThreshold
  | NotSynchronized
  | SpectatorTooFarBehind
  | InvalidRequest
deriving DecidableEq

/-- Requests the session hands to the host (GGRSRequest in the source; the save/load
payload cells are opaque to the spectator claims and omitted). -/
inductive GGRSRequest where
  | SaveGameState (frame : Int)
  | LoadGameState (frame : Int)
  | AdvanceFrame (inputs : List PlayerInput)
deriving DecidableEq

/-- Host-visible events queued by the session (GGRSEvent in the source; durations in
milliseconds). -/
inductive GGRSEvent where
  | Synchronizing (player_handle : Nat) (total : Nat) (count : Nat)
  | Synchronized (player_handle : Nat)
  | Disconnected (player_handle : Nat)
  | NetworkInterrupted (player_handle : Nat) (disconnect_timeout : Nat)
  | NetworkResumed (player_handle : Nat)
  | WaitRecommendation (skip_frames : Nat)
deriving DecidableEq

/-- Modelled from the spec: events emitted by the host protocol endpoint (protocol.rs
is not under src); exactly the variants consumed by handle_event in the spectator. -/
inductive ProtocolEvent where
  | Synchronizing (total : Nat) (count : Nat)
  | NetworkInterrupted (disconnect_timeout : Nat)
  | NetworkResumed
  | Synchronized
  | Disconnected
  | Input (input : PlayerInput)
deriving DecidableEq

/-- The amount of inputs a spectator can buffer (a second worth of inputs). -/
def SPECTATOR_BUFFER_SIZE : Nat := 60

/-- Default threshold of frames behind the host before catching up. -/
def DEFAULT_MAX_FRAMES_BEHIND : Nat := 10

/-- The amount of frames the spectator advances in a single step if not too far behind. -/
def NORMAL_SPEED : Nat := 1

/-- Default catchup speed. -/
def DEFAULT_CATCHUP_SPEED : Nat := 1

/-- The amount of events a spectator can buffer. -/
def MAX_EVENT_QUEUE_SIZE : Nat := 100

/-- State of a SpectatorSession (p2p_spectator_session.rs). The socket and the host
endpoint perform network I/O and are not part of the pure state; input_size models the
byte size of the generic input type. -/
structure SpectatorSession where
  state : SessionState
  num_players : Nat
  input_size : Nat
  inputs : List PlayerInput
  host_connect_status : List ConnectionStatus
  event_queue : List GGRSEvent
  current_frame : Int
  last_recv_frame : Int
  max_frames_behind : Nat
  catchup_speed : Nat
deriving DecidableEq

/-- SpectatorSession::new: 60 blank ring slots, default connection status per player,
both frame counters at NULL_FRAME, state Synchronizing. -/
def SpectatorSession.new (num_players input_size max_frames_behind catchup_speed : Nat) :
    SpectatorSession :=
  { state := SessionState.Synchronizing
    num_players := num_players
    input_size := input_size
    inputs := List.replicate SPECTATOR_BUFFER_SIZE (PlayerInput.blank_input input_size NULL_FRAME)
    host_connect_status := List.replicate num_players default
    event_queue := []
    current_frame := NULL_FRAME
    last_recv_frame := NULL_FRAME
    max_frames_behind := max_frames_behind
    catchup_speed := catchup_speed }

/-- frames_behind_host: last_recv_frame - current_frame, asserted non-negative then cast
to u32; a none result models the assert panic. -/
def SpectatorSession.frames_behind_host (st : SpectatorSession) : Option Nat :=
  if st.last_recv_frame - st.current_frame < 0 then none
  else some (st.last_recv_frame - st.current_frame).toNat

/-- The ring slot read for a frame: self.inputs at index frame mod 60. The ring always
has length 60, so the getD default is never taken. -/
def SpectatorSession.merged_slot (st : SpectatorSession) (frame_to_grab : Int) : PlayerInput :=
  st.inputs.getD (asUsize frame_to_grab % SPECTATOR_BUFFER_SIZE)
    (PlayerInput.blank_input st.input_size NULL_FRAME)

/-- inputs_at_frame: read the ring slot frame_to_grab mod 60 and check its frame stamp;
on success build one zeroed PlayerInput per player (the per-player split of the merged
payload is commented out as broken in the source), stamping NULL_FRAME for players that
are disconnected with last_frame below the requested frame. -/
def SpectatorSession.inputs_at_frame (st : SpectatorSession) (frame_to_grab : Int) :
    Except GGRSError (List PlayerInput) :=
  let merged_input := st.merged_slot frame_to_grab
  if merged_input.frame < frame_to_grab then Except.error GGRSError.PredictionThreshold
  else if frame_to_grab < merged_input.frame then Except.error GGRSError.SpectatorTooFarBehind
  else
    Except.ok ((List.range st.num_players).map (fun i =>
      let input := PlayerInput.new frame_to_grab (List.replicate st.input_size 0)
      if (st.host_connect_status.getD i default).disconnected = true ∧
          (st.host_connect_status.getD i default).last_frame < frame_to_grab then
        { input with frame := NULL_FRAME }
      else input))

/-- Decidable success test for a fetch of inputs. -/
def exceptIsOk {ε α : Type _} : Except ε α → Bool
  | Except.ok _ => true
  | Except.error _ => false

/-- The for-loop body of advance_frame: repeatedly fetch inputs for current_frame + 1,
push an AdvanceFrame request, and only then advance current_frame; an error return
aborts the loop, discarding the requests built so far but keeping the frame advances
already performed. -/
def advanceLoop : Nat → SpectatorSession → List GGRSRequest →
    Except GGRSError (List GGRSRequest) × SpectatorSession
  | 0, st, requests => (Except.ok requests, st)
  | n + 1, st, requests =>
    match st.inputs_at_frame (st.current_frame + 1) with
    | Except.error e => (Except.error e, st)
    | Except.ok synced_inputs =>
      advanceLoop n { st with current_frame := st.current_frame + 1 }
        (requests ++ [GGRSRequest.AdvanceFrame synced_inputs])

/-- Number of frames a single advance_frame call tries to advance, given the
frames-behind count. -/
def SpectatorSession.frames_to_advance (st : SpectatorSession) (behind : Nat) : Nat :=
  if behind > st.max_frames_behind then st.catchup_speed else NORMAL_SPEED

/-- advance_frame after the initial poll_remote_clients (polling is network I/O and is
modelled separately by handle_event): reject when not Running, otherwise run the
advance loop; none models the assert panic inside frames_behind_host. -/
def SpectatorSession.advance_frame (st : SpectatorSession) :
    Option (Except GGRSError (List GGRSRequest) × SpectatorSession) :=
  if st.state ≠ SessionState.Running then
    some (Except.error GGRSError.NotSynchronized, st)
  else
    match st.frames_behind_host with
    | none => none
    | some behind => some (advanceLoop (st.frames_to_advance behind) st [])

/-- The event handle_event forwards to the user queue (none for Input events, which are
stored in the ring instead); the spectator always uses player handle 0. -/
def userEvent : ProtocolEvent → Option GGRSEvent
  | ProtocolEvent.Synchronizing total count => some (GGRSEvent.Synchronizing 0 total count)
  | ProtocolEvent.NetworkInterrupted d => some (GGRSEvent.NetworkInterrupted 0 d)
  | ProtocolEvent.NetworkResumed => some (GGRSEvent.NetworkResumed 0)
  | ProtocolEvent.Synchronized => some (GGRSEvent.Synchronized 0)
  | ProtocolEvent.Disconnected => some (GGRSEvent.Disconnected 0)
  | ProtocolEvent.Input _ => none

/-- Fuel-recursive rendering of the while loop that pops the front of the event queue
while it holds more than MAX_EVENT_QUEUE_SIZE events; fuel = queue length suffices. -/
def trimEventsGo : Nat → List GGRSEvent → List GGRSEvent
  | 0, q => q
  | fuel + 1, q => if MAX_EVENT_QUEUE_SIZE < q.length then trimEventsGo fuel (q.drop 1) else q

/-- Discard oldest events from the front until at most MAX_EVENT_QUEUE_SIZE remain. -/
def trimEvents (q : List GGRSEvent) : List GGRSEvent := trimEventsGo q.length q

/-- The queue contents right after handle_event pushes the user-visible event and
before the overflow trim. -/
def pushed_events (st : SpectatorSession) (event : ProtocolEvent) : List GGRSEvent :=
  st.event_queue ++ (userEvent event).toList

/-- handle_event: store Input events in the ring (the source asserts the received frame
exceeds last_recv_frame; none models that assert panic), refresh last_recv_frame and
the host connection status from the endpoint view (peer_status models
host.peer_connect_status, whose protocol.rs is not under src), flip the state to
Running on Synchronized, push the user-visible event and trim the queue. -/
def SpectatorSession.handle_event (st : SpectatorSession) (peer_status : List ConnectionStatus)
    (event : ProtocolEvent) : Option SpectatorSession :=
  let st1 :=
    match event with
    | ProtocolEvent.Synchronized => some { st with state := SessionState.Running }
    | ProtocolEvent.Input input =>
      if st.last_recv_frame < input.frame then
        some { st with
          inputs := st.inputs.set (asUsize input.frame % SPECTATOR_BUFFER_SIZE) input
          last_recv_frame := input.frame
          host_connect_status :=
            (List.range st.num_players).map (fun i => peer_status.getD i default) }
      else none
    | _ => some st
  match st1 with
  | none => none
  | some s => some { s with event_queue := trimEvents (pushed_events st event) }

/-- set_catchup_speed with its InvalidRequest validation. -/
def SpectatorSession.set_catchup_speed (st : SpectatorSession) (desired : Nat) :
    Except GGRSError Unit × SpectatorSession :=
  if desired < 1 then (Except.error GGRSError.InvalidRequest, st)
  else if st.max_frames_behind ≤ desired then (Except.error GGRSError.InvalidRequest, st)
  else (Except.ok (), { st with catchup_speed := desired })

/-- set_max_frames_behind with its InvalidRequest validation. -/
def SpectatorSession.set_max_frames_behind (st : SpectatorSession) (desired : Nat) :
    Except GGRSError Unit × SpectatorSession :=
  if desired < 1 then (Except.error GGRSError.InvalidRequest, st)
  else if SPECTATOR_BUFFER_SIZE ≤ desired then (Except.error GGRSError.InvalidRequest, st)
  else (Except.ok (), { st with max_frames_behind := desired })

/-- events(): drain the whole event queue to the host. -/
def SpectatorSession.events_drain (st : SpectatorSession) :
    List GGRSEvent × SpectatorSession :=
  (st.event_queue, { st with event_queue := [] })

/-- States reachable from a fresh session by the public operations that touch the
session state (handle_event covers poll_remote_clients, which is a sequence of
handle_event calls on the endpoint events). -/
inductive Reachable : SpectatorSession → Prop where
  | base (num_players input_size max_frames_behind catchup_speed : Nat) :
    Reachable (SpectatorSession.new num_players input_size max_frames_behind catchup_speed)
  | step_handle_event {st st2 : SpectatorSession} {ps : List ConnectionStatus}
      {e : ProtocolEvent} : Reachable st → st.handle_event ps e = some st2 → Reachable st2
  | step_advance_frame {st st2 : SpectatorSession}
      {r : Except GGRSError (List GGRSRequest)} :
    Reachable st → st.advance_frame = some (r, st2) → Reachable st2
  | step_set_catchup_speed {st : SpectatorSession} {v : Nat} :
    Reachable st → Reachable (st.set_catchup_speed v).2
  | step_set_max_frames_behind {st : SpectatorSession} {v : Nat} :
    Reachable st → Reachable (st.set_max_frames_behind v).2
  | step_events_drain {st : SpectatorSession} :
    Reachable st → Reachable st.events_drain.2

/-- Frame invariant of the spectator session: the current frame never passes the last
received frame, the last received frame is at least NULL_FRAME, and every ring slot
carries a frame at most the last received frame. -/
def SpecInv (st : SpectatorSession) : Prop :=
  st.current_frame ≤ st.last_recv_frame ∧ NULL_FRAME ≤ st.last_recv_frame ∧
  ∀ inp ∈ st.inputs, inp.frame ≤ st.last_recv_frame

deriving instance DecidableEq for Except

/-- Reference input of the codec test in compression.rs: frame 5, size 4, buffer 0,0,0,1. -/
def exRef : GameInput := ⟨5, 4, [0, 0, 0, 1]⟩

/-- Pending inputs of the codec test: five zeroed inputs with frames 6 to 10. -/
def exPending : List GameInput :=
  [⟨6, 4, [0, 0, 0, 0]⟩, ⟨7, 4, [0, 0, 0, 0]⟩, ⟨8, 4, [0, 0, 0, 0]⟩,
   ⟨9, 4, [0, 0, 0, 0]⟩, ⟨10, 4, [0, 0, 0, 0]⟩]

/-- The encoded batch for exRef/exPending: five chunks of a 3-byte zero run and the
literal byte 1. -/
def exEncoded : List Nat := [13, 2, 1, 13, 2, 1, 13, 2, 1, 13, 2, 1, 13, 2, 1]

/-- A reference input of size 0 (GameInput::new places no restriction on the size). -/
def refZero : GameInput := GameInput.new 0 0

/-- A running one-player session whose ring slot 0 holds the merged payload byte 7 for
frame 0. -/
def wSession2 : SpectatorSession :=
  { SpectatorSession.new 1 1 10 2 with
    state := SessionState.Running
    last_recv_frame := 0
    inputs := (SpectatorSession.new 1 1 10 2).inputs.set 0 (PlayerInput.new 0 [7]) }

/-- A running one-player session 15 frames behind the host (catchup speed 2) with the
inputs for frames 0 and 1 present. -/
def wSession3 : SpectatorSession :=
  { SpectatorSession.new 1 1 10 2 with
    state := SessionState.Running
    last_recv_frame := 14
    inputs := ((SpectatorSession.new 1 1 10 2).inputs.set 0 (PlayerInput.new 0 [0])).set 1
      (PlayerInput.new 1 [0]) }

/-- A running two-player session at frame 0 where player 1 is disconnected with
last_frame 0 and the merged input for frame 1 is present. -/
def wSession5 : SpectatorSession :=
  { SpectatorSession.new 2 1 10 1 with
    state := SessionState.Running
    last_recv_frame := 1
    current_frame := 0
    host_connect_status := [⟨false, NULL_FRAME⟩, ⟨true, 0⟩]
    inputs := (SpectatorSession.new 2 1 10 1).inputs.set 1 (PlayerInput.new 1 [5]) }

/-- A session whose event queue already holds 100 events. -/
def wSession7 : SpectatorSession :=
  { SpectatorSession.new 1 1 10 2 with
    event_queue := List.replicate 100 (GGRSEvent.NetworkResumed 0) }

/-- The session wSession7 after handling a Synchronized event: the oldest queued event
was discarded from the front to keep the queue at 100 events. -/
def wSession7out : SpectatorSession :=
  { wSession7 with
    state := SessionState.Running
    event_queue := List.replicate 99 (GGRSEvent.NetworkResumed 0) ++ [GGRSEvent.Synchronized 0] }

/-- A running one-player session 15 frames behind the host (catchup speed 2) where only
the input for frame 0 is present, so the second catch-up step fails. -/
def wSession8 : SpectatorSession :=
  { SpectatorSession.new 1 1 10 2 with
    state := SessionState.Running
    last_recv_frame := 14
    inputs := (SpectatorSession.new 1 1 10 2).inputs.set 0 (PlayerInput.new 0 [0]) }

lemma inputs_at_frame_error_kind {st : SpectatorSession} {f : Int} {e : GGRSError}
    (h : st.inputs_at_frame f = Except.error e) :
    e = GGRSError.PredictionThreshold ∨ e = GGRSError.SpectatorTooFarBehind := by
  unfold SpectatorSession.inputs_at_frame at h
  by_cases h1 : (st.merged_slot f).frame < f
  · simp only [h1, if_true] at h
    exact Or.inl (Except.error.inj h).symm
  · by_cases h2 : f < (st.merged_slot f).frame
    · simp only [h1, h2, if_true, if_false] at h
      exact Or.inr (Except.error.inj h).symm
    · simp only [h1, h2, if_false] at h
      exact absurd h (by simp)

lemma inputs_at_frame_ok_shape {st : SpectatorSession} {f : Int} {res : List PlayerInput}
    (h : st.inputs_at_frame f = Except.ok res) :
    (st.merged_slot f).frame = f ∧
    res = (List.range st.num_players).map (fun i =>
      let input := PlayerInput.new f (List.replicate st.input_size 0)
      if (st.host_connect_status.getD i default).disconnected = true ∧
          (st.host_connect_status.getD i default).last_frame < f then
        { input with frame := NULL_FRAME }
      else input) := by
  unfold SpectatorSession.inputs_at_frame at h
  by_cases h1 : (st.merged_slot f).frame < f
  · simp only [h1, if_true] at h
    exact absurd h (by simp)
  · by_cases h2 : f < (st.merged_slot f).frame
    · simp only [h1, h2, if_true, if_false] at h
      exact absurd h (by simp)
    · simp only [h1, h2, if_false] at h
      exact ⟨le_antisymm (not_lt.mp h2) (not_lt.mp h1), (Except.ok.inj h).symm⟩

/-- Claim C4: fetching inputs for frame f = current_frame + 1 fails with
PredictionThreshold exactly when the ring slot at f mod 60 holds a frame below f, fails
with SpectatorTooFarBehind exactly when it holds a frame above f, and succeeds exactly
when the stored frame equals f. -/
theorem inputs_at_frame_error_cases (st : SpectatorSession) :
    (st.inputs_at_frame (st.current_frame + 1) = Except.error GGRSError.PredictionThreshold ↔
      (st.merged_slot (st.current_frame + 1)).frame < st.current_frame + 1) ∧
    (st.inputs_at_frame (st.current_frame + 1) = Except.error GGRSError.SpectatorTooFarBehind ↔
      st.current_frame + 1 < (st.merged_slot (st.current_frame + 1)).frame) ∧
    (exceptIsOk (st.inputs_at_frame (st.current_frame + 1)) = true ↔
      (st.merged_slot (st.current_frame + 1)).frame = st.current_frame + 1) := by
  rcases lt_trichotomy (st.merged_slot (st.current_frame + 1)).frame (st.current_frame + 1)
    with h | h | h
  · have he : st.inputs_at_frame (st.current_frame + 1) =
        Except.error GGRSError.PredictionThreshold := by
      unfold SpectatorSession.inputs_at_frame
      simp only [if_pos h]
    refine ⟨⟨fun _ => h, fun _ => he⟩, iff_of_false ?_ ?_, iff_of_false ?_ ?_⟩
    · rw [he]; simp
    · omega
    · rw [he]; simp [exceptIsOk]
    · omega
  · have hn1 : ¬ ((st.merged_slot (st.current_frame + 1)).frame < st.current_frame + 1) := by
      omega
    have hn2 : ¬ (st.current_frame + 1 < (st.merged_slot (st.current_frame + 1)).frame) := by
      omega
    have he : exceptIsOk (st.inputs_at_frame (st.current_frame + 1)) = true := by
      unfold SpectatorSession.inputs_at_frame
      rw [if_neg hn1, if_neg hn2]
      rfl
    refine ⟨iff_of_false ?_ hn1, iff_of_false ?_ hn2, iff_of_true he h⟩
    · intro hx
      rw [hx] at he
      simp [exceptIsOk] at he
    · intro hx
      rw [hx] at he
      simp [exceptIsOk] at he
  · have hn1 : ¬ ((st.merged_slot (st.current_frame + 1)).frame < st.current_frame + 1) := by
      omega
    have he : st.inputs_at_frame (st.current_frame + 1) =
        Except.error GGRSError.SpectatorTooFarBehind := by
      unfold SpectatorSession.inputs_at_frame
      rw [if_neg hn1, if_pos h]
    refine ⟨iff_of_false ?_ ?_, ⟨fun _ => h, fun _ => he⟩, iff_of_false ?_ ?_⟩
    · rw [he]; simp
    · omega
    · rw [he]; simp [exceptIsOk]
    · omega

lemma advanceLoop_error_kind : ∀ (n : Nat) (st : SpectatorSession) (acc : List GGRSRequest)
    {e : GGRSError} {st2 : SpectatorSession},
    advanceLoop n st acc = (Except.error e, st2) →
    e = GGRSError.PredictionThreshold ∨ e = GGRSError.SpectatorTooFarBehind := by
  intro n
  induction n with
  | zero =>
    intro st acc e st2 h
    exact absurd (congrArg Prod.fst h) (by simp [advanceLoop])
  | succ n ih =>
    intro st acc e st2 h
    unfold advanceLoop at h
    cases hm : st.inputs_at_frame (st.current_frame + 1) with
    | error e2 =>
      rw [hm] at h
      have : e2 = e := by
        have := congrArg Prod.fst h
        simpa using this
      exact this ▸ inputs_at_frame_error_kind hm
    | ok inputs =>
      rw [hm] at h
      exact ih _ _ h

/-- Claim C6: advance_frame returns NotSynchronized exactly when the session state is
not Running; in that case the state (in particular current_frame) is unchanged and no
requests are produced. -/
theorem advance_frame_not_synchronized_iff (st : SpectatorSession) :
    st.advance_frame = some (Except.error GGRSError.NotSynchronized, st) ↔
      st.state ≠ SessionState.Running := by
  constructor
  · intro h hrun
    unfold SpectatorSession.advance_frame at h
    rw [if_neg (by simp [hrun])] at h
    cases hb : st.frames_behind_host with
    | none => rw [hb] at h; exact absurd h (by simp)
    | some behind =>
      rw [hb] at h
      have h2 : advanceLoop (st.frames_to_advance behind) st [] =
          (Except.error GGRSError.NotSynchronized, st) := by
        exact Option.some.inj h
      rcases advanceLoop_error_kind _ _ _ h2 with h3 | h3 <;> exact absurd h3 (by simp)
  · intro h
    unfold SpectatorSession.advance_frame
    rw [if_pos h]

/-- Claim C5: in a successful fetch for a frame f above NULL_FRAME, player i receives
frame NULL_FRAME exactly when host_connect_status[i] is disconnected with
last_frame < f, and receives frame f otherwise. -/
theorem inputs_at_frame_null_frame_iff (st : SpectatorSession) (f : Int)
    (res : List PlayerInput) (i : Nat) (h : st.inputs_at_frame f = Except.ok res)
    (hf : NULL_FRAME < f) (hi : i < st.num_players) :
    res.length = st.num_players ∧
    ((res.getD i (PlayerInput.blank_input st.input_size NULL_FRAME)).frame = NULL_FRAME ↔
      ((st.host_connect_status.getD i default).disconnected = true ∧
        (st.host_connect_status.getD i default).last_frame < f)) ∧
    (¬ ((st.host_connect_status.getD i default).disconnected = true ∧
        (st.host_connect_status.getD i default).last_frame < f) →
      (res.getD i (PlayerInput.blank_input st.input_size NULL_FRAME)).frame = f) := by
  obtain ⟨-, hres⟩ := inputs_at_frame_ok_shape h
  have hlen : res.length = st.num_players := by
    rw [hres]; simp
  refine ⟨hlen, ?_⟩
  have hval : res.getD i (PlayerInput.blank_input st.input_size NULL_FRAME) =
      (if (st.host_connect_status.getD i default).disconnected = true ∧
          (st.host_connect_status.getD i default).last_frame < f then
        PlayerInput.mk NULL_FRAME (List.replicate st.input_size 0)
      else PlayerInput.mk f (List.replicate st.input_size 0)) := by
    rw [List.getD_eq_getElem _ _ (by rw [hlen]; exact hi)]
    rw [List.getElem_of_eq hres (by simp [hlen.symm ▸ hi])]
    simp only [List.getElem_map, List.getElem_range, PlayerInput.new]
  by_cases hc : (st.host_connect_status.getD i default).disconnected = true ∧
      (st.host_connect_status.getD i default).last_frame < f
  · rw [hval, if_pos hc]
    exact ⟨iff_of_true rfl hc, fun hn => absurd hc hn⟩
  · rw [hval, if_neg hc]
    refine ⟨iff_of_false ?_ hc, fun _ => rfl⟩
    intro hx
    have hx2 : f = -1 := hx
    have hf2 : (-1 : Int) < f := hf
    omega

/-- Claim C2 (code bug evidence): the fetch for frame 0 in wSession2 returns the zeroed
input for player 0, not the bytes at offsets 0*input_size to 1*input_size of the merged
payload stored in the ring (which are the byte 7). -/
theorem inputs_at_frame_ignores_merged_payload :
    wSession2.inputs_at_frame 0 = Except.ok [PlayerInput.new 0 [0]] ∧
    ((wSession2.merged_slot 0).input.drop (0 * wSession2.input_size)).take
      wSession2.input_size = [7] ∧
    (PlayerInput.new 0 [0]).input ≠
      ((wSession2.merged_slot 0).input.drop (0 * wSession2.input_size)).take
        wSession2.input_size := by
  refine ⟨by decide, by decide, by decide⟩

lemma inputs_at_frame_current_irrelevant (st : SpectatorSession) (c f : Int) :
    ({ st with current_frame := c }).inputs_at_frame f = st.inputs_at_frame f := rfl

lemma advanceLoop_ok : ∀ (n : Nat) (st : SpectatorSession) (acc : List GGRSRequest),
    (∀ j : Nat, j < n → exceptIsOk (st.inputs_at_frame (st.current_frame + 1 + (j : Int))) = true) →
    ∃ reqs st2, advanceLoop n st acc = (Except.ok reqs, st2) ∧
      reqs.length = acc.length + n ∧
      ∀ q ∈ reqs, q ∈ acc ∨ ∃ inps, q = GGRSRequest.AdvanceFrame inps := by
  intro n
  induction n with
  | zero =>
    intro st acc _
    exact ⟨acc, st, rfl, by simp [advanceLoop], fun q hq => Or.inl hq⟩
  | succ n ih =>
    intro st acc h
    have h0 : exceptIsOk (st.inputs_at_frame (st.current_frame + 1)) = true := by
      have := h 0 (by omega)
      simpa using this
    cases hm : st.inputs_at_frame (st.current_frame + 1) with
    | error e =>
      rw [hm] at h0
      simp [exceptIsOk] at h0
    | ok inputs =>
      have hrec := ih { st with current_frame := st.current_frame + 1 }
        (acc ++ [GGRSRequest.AdvanceFrame inputs]) ?_
      · obtain ⟨reqs, st2, heq, hlen, hmem⟩ := hrec
        refine ⟨reqs, st2, ?_, by simp at hlen; omega, ?_⟩
        · unfold advanceLoop
          rw [hm]
          exact heq
        · intro q hq
          rcases hmem q hq with hin | hex
          · rcases List.mem_append.mp hin with h1 | h1
            · exact Or.inl h1
            · exact Or.inr ⟨inputs, by simpa using h1⟩
          · exact Or.inr hex
      · intro j hj
        rw [inputs_at_frame_current_irrelevant]
        have h1 := h (j + 1) (by omega)
        have e1 : st.current_frame + 1 + ((j + 1 : Nat) : Int) =
            st.current_frame + 1 + 1 + (j : Int) := by
          push_cast
          ring
        rw [e1] at h1
        exact h1

/-- Claim C3: a running advance_frame call emits exactly frames_to_advance requests
(catchup_speed of them when behind > max_frames_behind, one otherwise) when the needed
inputs are present, and every emitted request is an AdvanceFrame. -/
theorem advance_frame_request_count (st : SpectatorSession) (behind : Nat)
    (hrun : st.state = SessionState.Running)
    (hb : st.frames_behind_host = some behind)
    (hok : ∀ j : Nat, j < st.frames_to_advance behind →
      exceptIsOk (st.inputs_at_frame (st.current_frame + 1 + (j : Int))) = true) :
    ∃ reqs st2, st.advance_frame = some (Except.ok reqs, st2) ∧
      reqs.length = st.frames_to_advance behind ∧
      ∀ q ∈ reqs, ∃ inps, q = GGRSRequest.AdvanceFrame inps := by
  obtain ⟨reqs, st2, heq, hlen, hmem⟩ := advanceLoop_ok (st.frames_to_advance behind) st [] hok
  refine ⟨reqs, st2, ?_, by simpa using hlen, ?_⟩
  · unfold SpectatorSession.advance_frame
    rw [if_neg (by simp [hrun]), hb]
    dsimp only
    rw [heq]
  · intro q hq
    rcases hmem q hq with hin | hex
    · simp at hin
    · exact hex

/-- Witness for claim C3 at the literal scenario of the spec: 15 frames behind with
max_frames_behind 10 and catchup_speed 2 produces exactly two AdvanceFrame requests. -/
theorem advance_frame_request_count_witness :
    wSession3.state = SessionState.Running ∧
    wSession3.frames_behind_host = some 15 ∧
    15 > wSession3.max_frames_behind ∧
    ∃ reqs st2, wSession3.advance_frame = some (Except.ok reqs, st2) ∧
      reqs.length = 2 ∧
      ∀ q ∈ reqs, ∃ inps, q = GGRSRequest.AdvanceFrame inps :=
  ⟨rfl, by decide, by decide,
    advance_frame_request_count wSession3 15 rfl (by decide)
      (fun j hj => by
        have hj2 : j < 2 := hj
        interval_cases j <;> decide)⟩

lemma advanceLoop_fail : ∀ (m : Nat), ∀ (n : Nat) (st : SpectatorSession)
    (acc : List GGRSRequest) (e : GGRSError), m < n →
    (∀ j : Nat, j < m → exceptIsOk (st.inputs_at_frame (st.current_frame + 1 + (j : Int))) = true) →
    st.inputs_at_frame (st.current_frame + 1 + (m : Int)) = Except.error e →
    advanceLoop n st acc =
      (Except.error e, { st with current_frame := st.current_frame + (m : Int) }) := by
  intro m
  induction m with
  | zero =>
    intro n st acc e hmn _ herr
    obtain ⟨n1, rfl⟩ : ∃ n1, n = n1 + 1 := ⟨n - 1, by omega⟩
    have herr0 : st.inputs_at_frame (st.current_frame + 1) = Except.error e := by
      have e1 : st.current_frame + 1 + ((0 : Nat) : Int) = st.current_frame + 1 := by
        push_cast
        ring
      rw [e1] at herr
      exact herr
    unfold advanceLoop
    rw [herr0]
    have e2 : st.current_frame + ((0 : Nat) : Int) = st.current_frame := by
      push_cast
      ring
    rw [e2]
  | succ m ih =>
    intro n st acc e hmn hok herr
    obtain ⟨n1, rfl⟩ : ∃ n1, n = n1 + 1 := ⟨n - 1, by omega⟩
    have h0 : exceptIsOk (st.inputs_at_frame (st.current_frame + 1)) = true := by
      have := hok 0 (by omega)
      simpa using this
    cases hm : st.inputs_at_frame (st.current_frame + 1) with
    | error e2 =>
      rw [hm] at h0
      simp [exceptIsOk] at h0
    | ok inputs =>
      have hrec := ih n1 { st with current_frame := st.current_frame + 1 }
        (acc ++ [GGRSRequest.AdvanceFrame inputs]) e (by omega) ?_ ?_
      · have e3 : st.current_frame + 1 + (m : Int) = st.current_frame + ((m + 1 : Nat) : Int) := by
          push_cast
          ring
        unfold advanceLoop
        rw [hm]
        exact hrec.trans
          (congrArg (fun x => (Except.error e, { st with current_frame := x })) e3)
      · intro j hj
        rw [inputs_at_frame_current_irrelevant]
        have h1 := hok (j + 1) (by omega)
        have e1 : st.current_frame + 1 + ((j + 1 : Nat) : Int) =
            st.current_frame + 1 + 1 + (j : Int) := by
          push_cast
          ring
        rw [e1] at h1
        exact h1
      · rw [inputs_at_frame_current_irrelevant]
        have e1 : st.current_frame + 1 + ((m + 1 : Nat) : Int) =
            st.current_frame + 1 + 1 + (m : Int) := by
          push_cast
          ring
        rw [e1] at herr
        exact herr

/-- Claim C8: advance_frame is not atomic across catch-up steps. If the fetch fails on
the k-th of the frames_to_advance steps (k at least 2, earlier steps succeeding), the
call returns the error, the k-1 AdvanceFrame requests already built are discarded (the
error result carries no request list), yet current_frame has already advanced k-1. -/
theorem advance_frame_partial_progress (st : SpectatorSession) (behind k : Nat)
    (e : GGRSError) (hrun : st.state = SessionState.Running)
    (hb : st.frames_behind_host = some behind)
    (hk : 2 ≤ k) (hkn : k ≤ st.frames_to_advance behind)
    (hok : ∀ j : Nat, j < k - 1 →
      exceptIsOk (st.inputs_at_frame (st.current_frame + 1 + (j : Int))) = true)
    (herr : st.inputs_at_frame (st.current_frame + (k : Int)) = Except.error e) :
    st.advance_frame =
      some (Except.error e, { st with current_frame := st.current_frame + ((k - 1 : Nat) : Int) }) := by
  unfold SpectatorSession.advance_frame
  rw [if_neg (by simp [hrun]), hb]
  dsimp only
  have herr2 : st.inputs_at_frame (st.current_frame + 1 + ((k - 1 : Nat) : Int)) =
      Except.error e := by
    have e1 : st.current_frame + 1 + ((k - 1 : Nat) : Int) = st.current_frame + (k : Int) := by
      have : ((k - 1 : Nat) : Int) = (k : Int) - 1 := by
        omega
      rw [this]
      ring
    rw [e1]
    exact herr
  rw [advanceLoop_fail (k - 1) (st.frames_to_advance behind) st [] e (by omega) hok herr2]

/-- Witness for claim C8: in wSession8 (catchup of 2 steps) the first step succeeds and
the second fails with PredictionThreshold, so the error is returned with no requests
while current_frame has already advanced from -1 to 0. -/
theorem advance_frame_partial_progress_witness :
    wSession8.state = SessionState.Running ∧
    wSession8.frames_behind_host = some 15 ∧
    wSession8.frames_to_advance 15 = 2 ∧
    wSession8.advance_frame =
      some (Except.error GGRSError.PredictionThreshold,
        { wSession8 with current_frame := wSession8.current_frame + ((2 - 1 : Nat) : Int) }) :=
  ⟨rfl, by decide, by decide,
    advance_frame_partial_progress wSession8 15 2 GGRSError.PredictionThreshold rfl
      (by decide) (by decide) (by decide)
      (fun j hj => by
        have hj2 : j < 1 := hj
        interval_cases j
        decide)
      (by decide)⟩

lemma trimEventsGo_spec : ∀ (fuel : Nat) (q : List GGRSEvent),
    q.length - MAX_EVENT_QUEUE_SIZE ≤ fuel →
    trimEventsGo fuel q = q.drop (q.length - MAX_EVENT_QUEUE_SIZE) := by
  intro fuel
  induction fuel with
  | zero =>
    intro q hq
    have h0 : q.length - MAX_EVENT_QUEUE_SIZE = 0 := by omega
    rw [h0, List.drop_zero]
    rfl
  | succ fuel ih =>
    intro q hq
    show (if MAX_EVENT_QUEUE_SIZE < q.length then trimEventsGo fuel (q.drop 1) else q) =
      q.drop (q.length - MAX_EVENT_QUEUE_SIZE)
    by_cases hlen : MAX_EVENT_QUEUE_SIZE < q.length
    · rw [if_pos hlen, ih (q.drop 1) (by rw [List.length_drop]; omega)]
      rw [List.drop_drop, List.length_drop]
      have harith : 1 + (q.length - 1 - MAX_EVENT_QUEUE_SIZE) =
          q.length - MAX_EVENT_QUEUE_SIZE := by omega
      rw [harith]
    · rw [if_neg hlen]
      have h0 : q.length - MAX_EVENT_QUEUE_SIZE = 0 := by omega
      rw [h0, List.drop_zero]

lemma trimEvents_spec (q : List GGRSEvent) :
    trimEvents q = q.drop (q.length - MAX_EVENT_QUEUE_SIZE) :=
  trimEventsGo_spec q.length q (by omega)

lemma trimEvents_length (q : List GGRSEvent) :
    (trimEvents q).length ≤ MAX_EVENT_QUEUE_SIZE := by
  rw [trimEvents_spec, List.length_drop]
  have : 0 < MAX_EVENT_QUEUE_SIZE := by decide
  omega

lemma handle_event_queue_eq {st st2 : SpectatorSession} {ps : List ConnectionStatus}
    {e : ProtocolEvent} (h : st.handle_event ps e = some st2) :
    st2.event_queue = trimEvents (pushed_events st e) := by
  unfold SpectatorSession.handle_event at h
  cases e with
  | Input inp =>
    dsimp only at h
    by_cases hc : st.last_recv_frame < inp.frame
    · rw [if_pos hc] at h
      dsimp only at h
      rw [← Option.some.inj h]
    · rw [if_neg hc] at h
      exact absurd h (by simp)
  | Synchronizing total count =>
    dsimp only at h
    rw [← Option.some.inj h]
  | NetworkInterrupted d =>
    dsimp only at h
    rw [← Option.some.inj h]
  | NetworkResumed =>
    dsimp only at h
    rw [← Option.some.inj h]
  | Synchronized =>
    dsimp only at h
    rw [← Option.some.inj h]
  | Disconnected =>
    dsimp only at h
    rw [← Option.some.inj h]

/-- Claim C7: after handle_event succeeds, the host-visible event queue holds at most
MAX_EVENT_QUEUE_SIZE events, and it is exactly the pushed queue with the oldest events
discarded from the front when that bound would be exceeded. -/
theorem handle_event_queue_bound (st st2 : SpectatorSession) (ps : List ConnectionStatus)
    (e : ProtocolEvent) (h : st.handle_event ps e = some st2) :
    st2.event_queue.length ≤ MAX_EVENT_QUEUE_SIZE ∧
    st2.event_queue = (pushed_events st e).drop
      ((pushed_events st e).length - MAX_EVENT_QUEUE_SIZE) := by
  have hq := handle_event_queue_eq h
  exact ⟨hq ▸ trimEvents_length _, hq.trans (trimEvents_spec _)⟩

/-- Witness for claim C7: handling a Synchronized event with the queue already at 100
events discards the oldest event from the front and keeps the queue at 100. -/
theorem handle_event_queue_bound_witness :
    wSession7.handle_event [] ProtocolEvent.Synchronized = some wSession7out ∧
    wSession7out.event_queue.length ≤ MAX_EVENT_QUEUE_SIZE ∧
    wSession7out.event_queue = (pushed_events wSession7 ProtocolEvent.Synchronized).drop
      ((pushed_events wSession7 ProtocolEvent.Synchronized).length - MAX_EVENT_QUEUE_SIZE) :=
  ⟨by decide,
    handle_event_queue_bound wSession7 wSession7out [] ProtocolEvent.Synchronized (by decide)⟩

lemma SpecInv_new (np isz mfb cs : Nat) : SpecInv (SpectatorSession.new np isz mfb cs) := by
  refine ⟨le_refl _, le_refl _, ?_⟩
  intro inp hinp
  rw [List.eq_of_mem_replicate hinp]
  exact le_refl _

lemma SpecInv_merged_slot {st : SpectatorSession} (h : SpecInv st) (f : Int) :
    (st.merged_slot f).frame ≤ st.last_recv_frame := by
  unfold SpectatorSession.merged_slot
  by_cases hlt : asUsize f % SPECTATOR_BUFFER_SIZE < st.inputs.length
  · rw [List.getD_eq_getElem _ _ (hlt)]
    exact h.2.2 _ (List.getElem_mem hlt)
  · rw [List.getD_eq_default _ _ (by omega)]
    exact h.2.1

lemma advanceLoop_inv : ∀ (n : Nat) (st : SpectatorSession) (acc : List GGRSRequest),
    SpecInv st → SpecInv (advanceLoop n st acc).2 := by
  intro n
  induction n with
  | zero => intro st acc h; exact h
  | succ n ih =>
    intro st acc h
    cases hm : st.inputs_at_frame (st.current_frame + 1) with
    | error e =>
      show SpecInv (advanceLoop (n + 1) st acc).2
      unfold advanceLoop
      rw [hm]
      exact h
    | ok inputs =>
      show SpecInv (advanceLoop (n + 1) st acc).2
      unfold advanceLoop
      rw [hm]
      have hframe := (inputs_at_frame_ok_shape hm).1
      have hslot := SpecInv_merged_slot h (st.current_frame + 1)
      have hstep : st.current_frame + 1 ≤ st.last_recv_frame := by omega
      exact ih { st with current_frame := st.current_frame + 1 }
        (acc ++ [GGRSRequest.AdvanceFrame inputs]) ⟨hstep, h.2.1, h.2.2⟩

lemma advance_frame_inv {st st2 : SpectatorSession}
    {r : Except GGRSError (List GGRSRequest)}
    (h : st.advance_frame = some (r, st2)) (hinv : SpecInv st) : SpecInv st2 := by
  unfold SpectatorSession.advance_frame at h
  by_cases hrun : st.state ≠ SessionState.Running
  · rw [if_pos hrun] at h
    have h2 : st = st2 := congrArg Prod.snd (Option.some.inj h)
    exact h2 ▸ hinv
  · rw [if_neg hrun] at h
    cases hb : st.frames_behind_host with
    | none =>
      rw [hb] at h
      exact absurd h (by simp)
    | some behind =>
      rw [hb] at h
      dsimp only at h
      have h2 : (advanceLoop (st.frames_to_advance behind) st []).2 = st2 :=
        congrArg Prod.snd (Option.some.inj h)
      exact h2 ▸ advanceLoop_inv (st.frames_to_advance behind) st [] hinv

lemma handle_event_inv {st st2 : SpectatorSession} {ps : List ConnectionStatus}
    {e : ProtocolEvent} (h : st.handle_event ps e = some st2) (hinv : SpecInv st) :
    SpecInv st2 := by
  unfold SpectatorSession.handle_event at h
  cases e with
  | Input inp =>
    dsimp only at h
    by_cases hc : st.last_recv_frame < inp.frame
    · rw [if_pos hc] at h
      dsimp only at h
      have h2 := (Option.some.inj h).symm
      subst h2
      have hcur := hinv.1
      have hnull := hinv.2.1
      refine ⟨by show st.current_frame ≤ inp.frame; omega,
        by show NULL_FRAME ≤ inp.frame; omega, ?_⟩
      intro x hx
      show x.frame ≤ inp.frame
      rcases List.mem_or_eq_of_mem_set hx with hxin | hxeq
      · have := hinv.2.2 x hxin
        omega
      · rw [hxeq]
    · rw [if_neg hc] at h
      exact absurd h (by simp)
  | Synchronizing total count =>
    dsimp only at h
    have h2 := (Option.some.inj h).symm
    subst h2
    exact ⟨hinv.1, hinv.2.1, hinv.2.2⟩
  | NetworkInterrupted d =>
    dsimp only at h
    have h2 := (Option.some.inj h).symm
    subst h2
    exact ⟨hinv.1, hinv.2.1, hinv.2.2⟩
  | NetworkResumed =>
    dsimp only at h
    have h2 := (Option.some.inj h).symm
    subst h2
    exact ⟨hinv.1, hinv.2.1, hinv.2.2⟩
  | Synchronized =>
    dsimp only at h
    have h2 := (Option.some.inj h).symm
    subst h2
    exact ⟨hinv.1, hinv.2.1, hinv.2.2⟩
  | Disconnected =>
    dsimp only at h
    have h2 := (Option.some.inj h).symm
    subst h2
    exact ⟨hinv.1, hinv.2.1, hinv.2.2⟩

lemma Reachable_SpecInv {st : SpectatorSession} (h : Reachable st) : SpecInv st := by
  induction h with
  | base np isz mfb cs => exact SpecInv_new np isz mfb cs
  | step_handle_event hr he ih => exact handle_event_inv he ih
  | step_advance_frame hr he ih => exact advance_frame_inv he ih
  | step_set_catchup_speed hr ih =>
    unfold SpectatorSession.set_catchup_speed
    split
    · exact ih
    · split
      · exact ih
      · exact ⟨ih.1, ih.2.1, ih.2.2⟩
  | step_set_max_frames_behind hr ih =>
    unfold SpectatorSession.set_max_frames_behind
    split
    · exact ih
    · split
      · exact ih
      · exact ⟨ih.1, ih.2.1, ih.2.2⟩
  | step_events_drain hr ih => exact ⟨ih.1, ih.2.1, ih.2.2⟩

/-- Claim C10: on every reachable session state, current_frame never exceeds
last_recv_frame, so frames_behind_host never hits its non-negativity assert (it always
returns the difference, never the modelled panic). -/
theorem frames_behind_host_assert_ok (st : SpectatorSession) (h : Reachable st) :
    st.frames_behind_host = some (st.last_recv_frame - st.current_frame).toNat := by
  have hinv := Reachable_SpecInv h
  unfold SpectatorSession.frames_behind_host
  rw [if_neg (by have := hinv.1; omega)]

/-- Witness for claim C10 at the freshly built session. -/
theorem frames_behind_host_assert_ok_witness :
    (SpectatorSession.new 2 4 10 1).frames_behind_host =
      some ((SpectatorSession.new 2 4 10 1).last_recv_frame -
        (SpectatorSession.new 2 4 10 1).current_frame).toNat :=
  frames_behind_host_assert_ok (SpectatorSession.new 2 4 10 1) (Reachable.base 2 4 10 1)

lemma varintEncodeGo_roundtrip : ∀ (fuel n : Nat) (rest : List Nat),
    n < 128 ^ (fuel + 1) →
    varintDecode (varintEncodeGo fuel n ++ rest) = some (n, rest) := by
  intro fuel
  induction fuel with
  | zero =>
    intro n rest hn
    have hsmall : n < 128 := by simpa using hn
    show varintDecode (n :: rest) = some (n, rest)
    unfold varintDecode
    rw [if_pos hsmall]
  | succ fuel ih =>
    intro n rest hn
    by_cases hsmall : n < 128
    · show varintDecode ((if n < 128 then [n] else (n % 128 + 128) :: varintEncodeGo fuel (n / 128))
        ++ rest) = some (n, rest)
      rw [if_pos hsmall]
      show varintDecode (n :: rest) = some (n, rest)
      unfold varintDecode
      rw [if_pos hsmall]
    · show varintDecode ((if n < 128 then [n] else (n % 128 + 128) :: varintEncodeGo fuel (n / 128))
        ++ rest) = some (n, rest)
      rw [if_neg hsmall]
      show varintDecode ((n % 128 + 128) :: (varintEncodeGo fuel (n / 128) ++ rest)) =
        some (n, rest)
      have hdiv : n / 128 < 128 ^ (fuel + 1) := by
        rw [Nat.div_lt_iff_lt_mul (by omega)]
        calc n < 128 ^ (fuel + 1 + 1) := hn
        _ = 128 ^ (fuel + 1) * 128 := by ring
      have hrec := ih (n / 128) rest hdiv
      unfold varintDecode
      rw [if_neg (by have := Nat.mod_lt n (show 0 < 128 by omega); omega)]
      rw [hrec]
      dsimp only
      have harith : n % 128 + 128 - 128 + 128 * (n / 128) = n := by
        have h1 : n % 128 + 128 * (n / 128) = n := Nat.mod_add_div n 128
        omega
      rw [harith]

lemma varintEncode_nat_bound (n : Nat) : n < 128 ^ (n + 1) := by
  calc n < 2 ^ n := Nat.lt_two_pow n
  _ ≤ 128 ^ n := Nat.pow_le_pow_left (by omega) n
  _ ≤ 128 ^ (n + 1) := Nat.pow_le_pow_right (by omega) (by omega)

lemma varintEncode_roundtrip (n : Nat) (rest : List Nat) :
    varintDecode (varintEncode n ++ rest) = some (n, rest) :=
  varintEncodeGo_roundtrip n n rest (varintEncode_nat_bound n)

lemma varintEncodeGo_ne_nil (fuel n : Nat) : varintEncodeGo fuel n ≠ [] := by
  cases fuel with
  | zero => simp [varintEncodeGo]
  | succ fuel =>
    show (if n < 128 then [n] else (n % 128 + 128) :: varintEncodeGo fuel (n / 128)) ≠ []
    split <;> simp

lemma length_dropWhile_le {α : Type _} (p : α → Bool) (l : List α) :
    (l.dropWhile p).length ≤ l.length := by
  induction l with
  | nil => simp [List.dropWhile]
  | cons a l ih =>
    simp only [List.dropWhile_cons]
    split
    · simp only [List.length_cons]
      omega
    · simp

lemma rleEncodeGo_fuel_irrelevant : ∀ (N : Nat), ∀ (xs : List Nat) (f g : Nat),
    xs.length ≤ N → xs.length ≤ f → xs.length ≤ g →
    rleEncodeGo f xs = rleEncodeGo g xs := by
  intro N
  induction N with
  | zero =>
    intro xs f g hN _ _
    have : xs = [] := List.length_eq_zero.mp (by omega)
    subst this
    cases f <;> cases g <;> rfl
  | succ N ih =>
    intro xs f g hN hf hg
    cases xs with
    | nil => cases f <;> cases g <;> rfl
    | cons b rest =>
      obtain ⟨f1, rfl⟩ : ∃ f1, f = f1 + 1 := ⟨f - 1, by simp at hf; omega⟩
      obtain ⟨g1, rfl⟩ : ∃ g1, g = g1 + 1 := ⟨g - 1, by simp at hg; omega⟩
      show _ ++ rleEncodeGo f1 (rest.dropWhile (fun x => x = b)) =
        _ ++ rleEncodeGo g1 (rest.dropWhile (fun x => x = b))
      have hlen := length_dropWhile_le (fun x => decide (x = b)) rest
      have hlen2 : rest.length + 1 ≤ N + 1 := by simpa using hN
      rw [ih (rest.dropWhile (fun x => x = b)) f1 g1 (by simp at hN ⊢; omega)
        (by simp at hf ⊢; omega) (by simp at hg ⊢; omega)]

lemma run_replicate (b : Nat) (rest : List Nat) :
    b :: rest.takeWhile (fun x => x = b) =
      List.replicate ((rest.takeWhile (fun x => x = b)).length + 1) b := by
  rw [List.replicate_succ]
  congr 1
  apply List.eq_replicate_of_mem
  intro x hx
  have h1 := List.mem_takeWhile_imp hx
  simpa using h1

lemma rle_roundtrip_go : ∀ (N : Nat) (xs : List Nat) (g : Nat),
    xs.length ≤ N → (bitfield_rle_encode xs).length ≤ g →
    rleDecodeGo g (bitfield_rle_encode xs) = some xs := by
  intro N
  induction N with
  | zero =>
    intro xs g hN _
    have hnil : xs = [] := List.length_eq_zero.mp (by omega)
    subst hnil
    show rleDecodeGo g [] = some []
    cases g <;> rfl
  | succ N ih =>
    intro xs g hN hg
    cases xs with
    | nil =>
      show rleDecodeGo g [] = some []
      cases g <;> rfl
    | cons b rest =>
      have htail : rleEncodeGo rest.length (rest.dropWhile (fun x => x = b)) =
          bitfield_rle_encode (rest.dropWhile (fun x => x = b)) :=
        rleEncodeGo_fuel_irrelevant rest.length (rest.dropWhile (fun x => x = b))
          rest.length (rest.dropWhile (fun x => x = b)).length
          (length_dropWhile_le _ _) (length_dropWhile_le _ _) (le_refl _)
      have hench : bitfield_rle_encode (b :: rest) =
          (if b = 0 ∨ b = 255 then
            varintEncode (4 * ((rest.takeWhile (fun x => x = b)).length + 1) +
              (if b = 255 then 2 else 0) + 1)
          else
            varintEncode (2 * ((rest.takeWhile (fun x => x = b)).length + 1)) ++
              List.replicate ((rest.takeWhile (fun x => x = b)).length + 1) b) ++
          bitfield_rle_encode (rest.dropWhile (fun x => x = b)) := by
        show (if b = 0 ∨ b = 255 then
            varintEncode (4 * ((rest.takeWhile (fun x => x = b)).length + 1) +
              (if b = 255 then 2 else 0) + 1)
          else
            varintEncode (2 * ((rest.takeWhile (fun x => x = b)).length + 1)) ++
              List.replicate ((rest.takeWhile (fun x => x = b)).length + 1) b) ++
          rleEncodeGo rest.length (rest.dropWhile (fun x => x = b)) = _
        rw [htail]
      have hrestN : rest.length ≤ N := by
        simp at hN
        omega
      have htlen : (rest.dropWhile (fun x => x = b)).length ≤ N :=
        le_trans (length_dropWhile_le _ _) hrestN
      have hsplit : rest.takeWhile (fun x => x = b) ++ rest.dropWhile (fun x => x = b) = rest :=
        List.takeWhile_append_dropWhile _ _
      by_cases hbf : b = 0 ∨ b = 255
      · rw [hench, if_pos hbf]
        rw [hench, if_pos hbf] at hg
        cases hv : varintEncode (4 * ((rest.takeWhile (fun x => x = b)).length + 1) +
            (if b = 255 then 2 else 0) + 1) with
        | nil => exact absurd hv (varintEncodeGo_ne_nil _ _)
        | cons c cs =>
          rw [hv] at hg
          have hg1 : 1 ≤ g := by
            simp [List.length_append] at hg
            omega
          obtain ⟨g1, rfl⟩ : ∃ g1, g = g1 + 1 := ⟨g - 1, by omega⟩
          show (match varintDecode (c :: (cs ++
              bitfield_rle_encode (rest.dropWhile (fun x => x = b)))) with
            | none => none
            | some (n, r) =>
              if n % 2 = 1 then
                match rleDecodeGo g1 r with
                | some d => some (List.replicate (n / 4) (if n / 2 % 2 = 1 then 255 else 0) ++ d)
                | none => none
              else
                if n / 2 ≤ r.length then
                  match rleDecodeGo g1 (r.drop (n / 2)) with
                  | some d => some (r.take (n / 2) ++ d)
                  | none => none
                else none) = some (b :: rest)
          have hvd : (c :: (cs ++ bitfield_rle_encode (rest.dropWhile (fun x => x = b)))) =
              varintEncode (4 * ((rest.takeWhile (fun x => x = b)).length + 1) +
                (if b = 255 then 2 else 0) + 1) ++
                bitfield_rle_encode (rest.dropWhile (fun x => x = b)) := by
            rw [hv]
            rfl
          rw [hvd, varintEncode_roundtrip]
          dsimp only
          have hgt : (bitfield_rle_encode (rest.dropWhile (fun x => x = b))).length ≤ g1 := by
            simp [List.length_append] at hg
            omega
          have hrec := ih (rest.dropWhile (fun x => x = b)) g1 htlen hgt
          rcases hbf with hb | hb
          · subst hb
            rw [if_neg (show (0 : Nat) = 255 → False by omega)]
            rw [if_pos (show (4 * ((rest.takeWhile (fun x => x = 0)).length + 1) + 0 + 1) % 2 = 1
              by omega)]
            rw [hrec]
            dsimp only
            rw [show (4 * ((rest.takeWhile (fun x => x = 0)).length + 1) + 0 + 1) / 4 =
              (rest.takeWhile (fun x => x = 0)).length + 1 by omega]
            rw [if_neg (show (4 * ((rest.takeWhile (fun x => x = 0)).length + 1) + 0 + 1) /
              2 % 2 = 1 → False by omega)]
            rw [← run_replicate 0 rest, List.cons_append, hsplit]
          · subst hb
            rw [if_pos (show (255 : Nat) = 255 by rfl)]
            rw [if_pos (show (4 * ((rest.takeWhile (fun x => x = 255)).length + 1) + 2 + 1) % 2 = 1
              by omega)]
            rw [hrec]
            dsimp only
            rw [show (4 * ((rest.takeWhile (fun x => x = 255)).length + 1) + 2 + 1) / 4 =
              (rest.takeWhile (fun x => x = 255)).length + 1 by omega]
            rw [if_pos (show (4 * ((rest.takeWhile (fun x => x = 255)).length + 1) + 2 + 1) /
              2 % 2 = 1 by omega)]
            rw [← run_replicate 255 rest, List.cons_append, hsplit]
      · rw [hench, if_neg hbf]
        rw [hench, if_neg hbf] at hg
        rw [List.append_assoc]
        rw [List.append_assoc] at hg
        cases hv : varintEncode (2 * ((rest.takeWhile (fun x => x = b)).length + 1)) with
        | nil => exact absurd hv (varintEncodeGo_ne_nil _ _)
        | cons c cs =>
          rw [hv] at hg
          have hg1 : 1 ≤ g := by
            simp [List.length_append] at hg
            omega
          obtain ⟨g1, rfl⟩ : ∃ g1, g = g1 + 1 := ⟨g - 1, by omega⟩
          show (match varintDecode (c :: (cs ++
              (List.replicate ((rest.takeWhile (fun x => x = b)).length + 1) b ++
                bitfield_rle_encode (rest.dropWhile (fun x => x = b))))) with
            | none => none
            | some (n, r) =>
              if n % 2 = 1 then
                match rleDecodeGo g1 r with
                | some d => some (List.replicate (n / 4) (if n / 2 % 2 = 1 then 255 else 0) ++ d)
                | none => none
              else
                if n / 2 ≤ r.length then
                  match rleDecodeGo g1 (r.drop (n / 2)) with
                  | some d => some (r.take (n / 2) ++ d)
                  | none => none
                else none) = some (b :: rest)
          have hvd : (c :: (cs ++
              (List.replicate ((rest.takeWhile (fun x => x = b)).length + 1) b ++
                bitfield_rle_encode (rest.dropWhile (fun x => x = b))))) =
              varintEncode (2 * ((rest.takeWhile (fun x => x = b)).length + 1)) ++
                (List.replicate ((rest.takeWhile (fun x => x = b)).length + 1) b ++
                  bitfield_rle_encode (rest.dropWhile (fun x => x = b))) := by
            rw [hv]
            rfl
          rw [hvd, varintEncode_roundtrip]
          dsimp only
          rw [if_neg (show (2 * ((rest.takeWhile (fun x => x = b)).length + 1)) % 2 = 1 → False
            by omega)]
          have hhalf : (2 * ((rest.takeWhile (fun x => x = b)).length + 1)) / 2 =
              (rest.takeWhile (fun x => x = b)).length + 1 := by omega
          rw [hhalf]
          rw [if_pos (by rw [List.length_append, List.length_replicate]; omega)]
          have htake : (List.replicate ((rest.takeWhile (fun x => x = b)).length + 1) b ++
              bitfield_rle_encode (rest.dropWhile (fun x => x = b))).take
                ((rest.takeWhile (fun x => x = b)).length + 1) =
              List.replicate ((rest.takeWhile (fun x => x = b)).length + 1) b := by
            have h1 := List.take_left
              (List.replicate ((rest.takeWhile (fun x => x = b)).length + 1) b)
              (bitfield_rle_encode (rest.dropWhile (fun x => x = b)))
            rw [List.length_replicate] at h1
            exact h1
          have hdrop : (List.replicate ((rest.takeWhile (fun x => x = b)).length + 1) b ++
              bitfield_rle_encode (rest.dropWhile (fun x => x = b))).drop
                ((rest.takeWhile (fun x => x = b)).length + 1) =
              bitfield_rle_encode (rest.dropWhile (fun x => x = b)) := by
            have h1 := List.drop_left
              (List.replicate ((rest.takeWhile (fun x => x = b)).length + 1) b)
              (bitfield_rle_encode (rest.dropWhile (fun x => x = b)))
            rw [List.length_replicate] at h1
            exact h1
          rw [htake, hdrop]
          have hgt : (bitfield_rle_encode (rest.dropWhile (fun x => x = b))).length ≤ g1 := by
            simp [List.length_append] at hg
            omega
          rw [ih (rest.dropWhile (fun x => x = b)) g1 htlen hgt]
          dsimp only
          rw [← run_replicate b rest, List.cons_append, hsplit]

lemma rle_roundtrip (xs : List Nat) :
    bitfield_rle_decode (bitfield_rle_encode xs) = some xs :=
  rle_roundtrip_go xs.length xs (bitfield_rle_encode xs).length (le_refl _) (le_refl _)

lemma delta_encodeGo_ne_none_iff : ∀ (xs : List GameInput) (r : GameInput) (j : Nat),
    delta_encodeGo r j xs ≠ none ↔
    ((∀ x ∈ xs, x.size = r.size) ∧
      (r.frame = NULL_FRAME ∨ ∀ i : Nat, i < xs.length →
        (xs.getD i (GameInput.new 0 0)).frame = r.frame + ((j + i : Nat) : Int) + 1)) := by
  intro xs
  induction xs with
  | nil =>
    intro r j
    refine iff_of_true (by show some [] ≠ none; simp) ?_
    exact ⟨by simp, Or.inr (fun i hi => absurd hi (by simp))⟩
  | cons x rest ih =>
    intro r j
    by_cases hc : x.size = r.size ∧
        (r.frame = NULL_FRAME ∨ x.frame = r.frame + (j : Int) + 1)
    · have hstep : delta_encodeGo r j (x :: rest) ≠ none ↔
          delta_encodeGo r (j + 1) rest ≠ none := by
        show (if x.size = r.size ∧
            (r.frame = NULL_FRAME ∨ x.frame = r.frame + (j : Int) + 1) then
          match delta_encodeGo r (j + 1) rest with
          | some bs =>
            some (List.zipWith (fun b1 b2 => b1 ^^^ b2) r.input x.input ++ bs)
          | none => none
          else none) ≠ none ↔ _
        rw [if_pos hc]
        cases delta_encodeGo r (j + 1) rest <;> simp
      rw [hstep, ih r (j + 1)]
      constructor
      · rintro ⟨hsz, hfr⟩
        refine ⟨List.forall_mem_cons.mpr ⟨hc.1, hsz⟩, ?_⟩
        by_cases hnull : r.frame = NULL_FRAME
        · exact Or.inl hnull
        · refine Or.inr (fun i hi => ?_)
          have hfr2 := hfr.resolve_left hnull
          cases i with
          | zero =>
            rw [List.getD_cons_zero]
            have h2 := hc.2.resolve_left hnull
            rw [h2]
            push_cast
            ring
          | succ i2 =>
            rw [List.getD_cons_succ]
            have h3 := hfr2 i2 (by simpa using hi)
            rw [h3]
            push_cast
            ring
      · rintro ⟨hsz, hfr⟩
        refine ⟨fun y hy => hsz y (List.mem_cons_of_mem x hy), ?_⟩
        by_cases hnull : r.frame = NULL_FRAME
        · exact Or.inl hnull
        · refine Or.inr (fun i2 hi2 => ?_)
          have hfr2 := hfr.resolve_left hnull
          have h3 := hfr2 (i2 + 1) (by simpa using hi2)
          rw [List.getD_cons_succ] at h3
          rw [h3]
          push_cast
          ring
    · have hnone : delta_encodeGo r j (x :: rest) = none := by
        show (if x.size = r.size ∧
            (r.frame = NULL_FRAME ∨ x.frame = r.frame + (j : Int) + 1) then
          match delta_encodeGo r (j + 1) rest with
          | some bs =>
            some (List.zipWith (fun b1 b2 => b1 ^^^ b2) r.input x.input ++ bs)
          | none => none
          else none) = none
        rw [if_neg hc]
      rw [hnone]
      refine iff_of_false (by simp) ?_
      rintro ⟨hsz, hfr⟩
      apply hc
      refine ⟨hsz x (List.mem_cons_self x rest), ?_⟩
      by_cases hnull : r.frame = NULL_FRAME
      · exact Or.inl hnull
      · have hfr2 := hfr.resolve_left hnull
        have h0 := hfr2 0 (by simp)
        rw [List.getD_cons_zero] at h0
        refine Or.inr ?_
        rw [h0]
        push_cast
        ring

/-- Claim C9: encode panics (via the asserts in delta_encode) exactly unless every
pending input has the reference size and, whenever the reference frame is not
NULL_FRAME, the i-th pending frame is reference.frame + i + 1; under those
preconditions no assertion fires and encoding succeeds. -/
theorem encode_assert_characterization (r : GameInput) (xs : List GameInput) :
    encode r xs ≠ none ↔
    ((∀ x ∈ xs, x.size = r.size) ∧
      (r.frame = NULL_FRAME ∨ ∀ i : Nat, i < xs.length →
        (xs.getD i (GameInput.new 0 0)).frame = r.frame + (i : Int) + 1)) := by
  have h1 : encode r xs ≠ none ↔ delta_encode r xs ≠ none := by
    unfold encode
    cases delta_encode r xs <;> simp
  rw [h1]
  have h2 := delta_encodeGo_ne_none_iff xs r 0
  simpa using h2

lemma input_length_of_WF {g : GameInput} (h : GameInput.WF g) : g.input.length = g.size := by
  show (g.buffer.take g.size).length = g.size
  rw [List.length_take]
  exact min_eq_left h

lemma delta_encodeGo_some_eq : ∀ (xs : List GameInput) (r : GameInput) (j : Nat)
    (d : List Nat), delta_encodeGo r j xs = some d →
    d = (xs.map (fun x => List.zipWith (fun b1 b2 => b1 ^^^ b2) r.input x.input)).flatten := by
  intro xs
  induction xs with
  | nil =>
    intro r j d h
    have h2 : ([] : List Nat) = d := Option.some.inj h
    rw [← h2]
    rfl
  | cons x rest ih =>
    intro r j d h
    have hbody : delta_encodeGo r j (x :: rest) =
        (if x.size = r.size ∧
            (r.frame = NULL_FRAME ∨ x.frame = r.frame + (j : Int) + 1) then
          match delta_encodeGo r (j + 1) rest with
          | some bs =>
            some (List.zipWith (fun b1 b2 => b1 ^^^ b2) r.input x.input ++ bs)
          | none => none
          else none) := rfl
    rw [hbody] at h
    by_cases hc : x.size = r.size ∧
        (r.frame = NULL_FRAME ∨ x.frame = r.frame + (j : Int) + 1)
    · rw [if_pos hc] at h
      cases hrec : delta_encodeGo r (j + 1) rest with
      | none =>
        rw [hrec] at h
        exact absurd h (by simp)
      | some bs =>
        rw [hrec] at h
        have h2 := Option.some.inj h
        rw [← h2, List.map_cons, List.flatten_cons, ih r (j + 1) bs hrec]
    · rw [if_neg hc] at h
      exact absurd h (by simp)

lemma flatten_length_const : ∀ (chunks : List (List Nat)) (s : Nat),
    (∀ c ∈ chunks, c.length = s) → chunks.flatten.length = chunks.length * s := by
  intro chunks
  induction chunks with
  | nil => intro s _; simp
  | cons c rest ih =>
    intro s h
    rw [List.flatten_cons, List.length_append, h c (List.mem_cons_self c rest),
      ih s (fun y hy => h y (List.mem_cons_of_mem c hy))]
    simp [Nat.succ_mul]
    omega

lemma flatten_chunk_extract : ∀ (chunks : List (List Nat)) (s k : Nat),
    (∀ c ∈ chunks, c.length = s) → k < chunks.length →
    (chunks.flatten.drop (s * k)).take s = chunks.getD k [] := by
  intro chunks
  induction chunks with
  | nil =>
    intro s k _ hk
    exact absurd hk (by simp)
  | cons c rest ih =>
    intro s k h hk
    cases k with
    | zero =>
      rw [Nat.mul_zero, List.drop_zero, List.flatten_cons, List.getD_cons_zero]
      have h1 := List.take_left c rest.flatten
      rw [← h c (List.mem_cons_self c rest)]
      exact h1
    | succ k2 =>
      rw [List.getD_cons_succ, List.flatten_cons]
      have harith : s * (k2 + 1) = c.length + s * k2 := by
        rw [h c (List.mem_cons_self c rest)]
        ring
      rw [harith, ← List.drop_drop, List.drop_left]
      exact ih s k2 (fun y hy => h y (List.mem_cons_of_mem c hy)) (by simpa using hk)

lemma zipWith_xor_cancel : ∀ (a b : List Nat), a.length = b.length →
    List.zipWith (fun x y => x ^^^ y) a (List.zipWith (fun x y => x ^^^ y) a b) = b := by
  intro a
  induction a with
  | nil =>
    intro b hb
    have : b = [] := List.length_eq_zero.mp (by simpa using hb.symm)
    subst this
    rfl
  | cons x a ih =>
    intro b hb
    cases b with
    | nil => simp at hb
    | cons y b =>
      show (x ^^^ (x ^^^ y)) :: List.zipWith (fun x y => x ^^^ y) a
        (List.zipWith (fun x y => x ^^^ y) a b) = y :: b
      rw [← Nat.xor_assoc, Nat.xor_self, Nat.zero_xor, ih b (by simpa using hb)]

lemma input_mk (f : Int) (s : Nat) (buf : List Nat) :
    (GameInput.mk f s buf).input = buf.take s := rfl

/-- Claim C1 (amended): for a well-formed reference of positive size and pending inputs
of matching size, whenever encode succeeds (its asserts pass), decoding the encoded
batch against the same reference returns a list that is equal input-for-input to the
pending inputs (input equality compares sizes and live buffers) and whose frames run
consecutively from the given start frame. -/
theorem decode_encode_roundtrip (r : GameInput) (xs : List GameInput) (start : Int)
    (e : List Nat) (hr : GameInput.WF r) (hpos : 0 < r.size)
    (hxs : ∀ x ∈ xs, GameInput.WF x ∧ x.size = r.size)
    (henc : encode r xs = some e) :
    ∃ ys, decode r start e = some ys ∧ List.Forall₂ gameInputEq ys xs ∧
      ∀ k : Nat, k < ys.length → (ys.getD k (GameInput.new 0 0)).frame = start + (k : Int) := by
  obtain ⟨d, hd, he⟩ : ∃ d, delta_encode r xs = some d ∧ e = bitfield_rle_encode d := by
    unfold encode at henc
    cases hdel : delta_encode r xs with
    | none =>
      rw [hdel] at henc
      exact absurd henc (by simp)
    | some d =>
      rw [hdel] at henc
      exact ⟨d, rfl, (Option.some.inj henc).symm⟩
  have hdeq := delta_encodeGo_some_eq xs r 0 d hd
  have hri : r.input.length = r.size := input_length_of_WF hr
  have hchunks : ∀ c ∈ xs.map (fun x => List.zipWith (fun b1 b2 => b1 ^^^ b2) r.input x.input),
      c.length = r.size := by
    intro c hc
    obtain ⟨x, hx, rfl⟩ := List.mem_map.mp hc
    rw [List.length_zipWith, hri, input_length_of_WF (hxs x hx).1, (hxs x hx).2]
    simp
  have hdlen : d.length = xs.length * r.size := by
    rw [hdeq, flatten_length_const _ r.size hchunks, List.length_map]
  have hdec : decode r start e = delta_decode r start d := by
    unfold decode
    rw [he, rle_roundtrip]
  have hout : d.length / r.size = xs.length := by
    rw [hdlen]
    exact Nat.mul_div_cancel xs.length hpos
  have hmod : d.length % r.size = 0 := by
    rw [hdlen]
    exact Nat.mul_mod_left xs.length r.size
  have hdd : delta_decode r start d =
      some ((List.range xs.length).map (fun (k : Nat) =>
        { frame := start + (k : Int)
          size := r.size
          buffer :=
            List.zipWith (fun b d2 => b ^^^ d2) r.input
              ((d.drop (r.size * k)).take r.input.length) ++
            List.replicate (r.size - r.input.length) 0 })) := by
    unfold delta_decode
    rw [if_neg (by omega), if_neg (by rw [hmod]; simp), hout]
  have hbuf : ∀ k : Nat, k < xs.length →
      (List.zipWith (fun b d2 => b ^^^ d2) r.input
          ((d.drop (r.size * k)).take r.input.length) ++
        List.replicate (r.size - r.input.length) 0) =
      (xs.getD k (GameInput.new 0 0)).input := by
    intro k hk
    have hmem : xs.getD k (GameInput.new 0 0) ∈ xs := by
      rw [List.getD_eq_getElem _ _ (hk)]
      exact List.getElem_mem hk
    obtain ⟨hwf, hsz⟩ := hxs _ hmem
    have hchunk : (d.drop (r.size * k)).take r.input.length =
        (xs.map (fun x => List.zipWith (fun b1 b2 => b1 ^^^ b2) r.input x.input)).getD k [] := by
      rw [hri, hdeq]
      exact flatten_chunk_extract _ r.size k hchunks (by simpa using hk)
    have hgetmap : (xs.map (fun x =>
        List.zipWith (fun b1 b2 => b1 ^^^ b2) r.input x.input)).getD k [] =
        List.zipWith (fun b1 b2 => b1 ^^^ b2) r.input (xs.getD k (GameInput.new 0 0)).input := by
      rw [List.getD_eq_getElem _ _ (by simpa using hk), List.getElem_map,
        List.getD_eq_getElem _ _ (hk)]
    rw [hchunk, hgetmap, show r.size - r.input.length = 0 by omega, List.replicate_zero,
      List.append_nil]
    exact zipWith_xor_cancel r.input _
      (by rw [hri, input_length_of_WF hwf, hsz])
  refine ⟨_, hdec.trans hdd, ?_, ?_⟩
  · rw [List.forall₂_iff_get]
    refine ⟨by simp, ?_⟩
    intro i h1 h2
    rw [List.get_eq_getElem, List.get_eq_getElem, List.getElem_map, List.getElem_range]
    have hmem : xs[i] ∈ xs := List.getElem_mem h2
    obtain ⟨hwf, hsz⟩ := hxs _ hmem
    constructor
    · exact hsz.symm
    · rw [input_mk, hbuf i (by simpa using h2), List.getD_eq_getElem _ _ (by simpa using h2)]
      have hl : (xs[i].input).length = r.size := by
        rw [input_length_of_WF hwf, hsz]
      rw [← hl]
      exact List.take_length _
  · intro k hk
    rw [List.getD_eq_getElem _ _ (by simpa using hk), List.getElem_map, List.getElem_range]

/-- Witness for claim C1 at the literal codec scenario of the spec: reference buffer
0,0,0,1 at frame 5, five zeroed inputs with frames 6 to 10, start frame 6. -/
theorem decode_encode_roundtrip_witness :
    encode exRef exPending = some exEncoded ∧
    ∃ ys, decode exRef 6 exEncoded = some ys ∧ List.Forall₂ gameInputEq ys exPending ∧
      ∀ k : Nat, k < ys.length → (ys.getD k (GameInput.new 0 0)).frame = 6 + (k : Int) :=
  ⟨by rfl,
    decode_encode_roundtrip exRef exPending 6 exEncoded (by decide) (by decide)
      (by decide) (by rfl)⟩

/-- Counterexample to claim C1 as frozen: with a size-0 reference every input sequence
has matching sizes (vacuously for the empty one), encode succeeds, yet decode panics on
the remainder by reference.size = 0 (modelled as none) rather than returning the
sequence. -/
theorem decode_encode_size_zero_counterexample :
    (∀ x ∈ ([] : List GameInput), x.size = refZero.size) ∧
    encode refZero [] = some [] ∧
    decode refZero 0 [] = none :=
  ⟨by simp, by rfl, by rfl⟩

/-- Witness for claim C5: in wSession5 the fetch for frame 1 returns frame 1 for the
connected player 0 and NULL_FRAME for player 1, who is disconnected with last_frame 0. -/
theorem inputs_at_frame_null_frame_iff_witness :
    wSession5.inputs_at_frame 1 =
      Except.ok [PlayerInput.new 1 [0], PlayerInput.new NULL_FRAME [0]] ∧
    ([PlayerInput.new 1 [0], PlayerInput.new NULL_FRAME [0]].length = wSession5.num_players ∧
      (([PlayerInput.new 1 [0], PlayerInput.new NULL_FRAME [0]].getD 1
          (PlayerInput.blank_input wSession5.input_size NULL_FRAME)).frame = NULL_FRAME ↔
        ((wSession5.host_connect_status.getD 1 default).disconnected = true ∧
          (wSession5.host_connect_status.getD 1 default).last_frame < 1)) ∧
      (¬ ((wSession5.host_connect_status.getD 1 default).disconnected = true ∧
          (wSession5.host_connect_status.getD 1 default).last_frame < 1) →
        ([PlayerInput.new 1 [0], PlayerInput.new NULL_FRAME [0]].getD 1
          (PlayerInput.blank_input wSession5.input_size NULL_FRAME)).frame = 1)) :=
  ⟨by decide,
    inputs_at_frame_null_frame_iff wSession5 1
      [PlayerInput.new 1 [0], PlayerInput.new NULL_FRAME [0]] 1 (by decide) (by decide)
      (by decide)⟩
